import Mathlib

/-!
Verification of the crfsuite-rs tagging wrapper (`src/lib.rs`).

The Rust crate is a thin wrapper over the native crfsuite engine: `Tagger`
owns a model and a scored instance, and exposes `labels`, `set`, `tag`,
`viterbi` and `probability`.  The wrapper logic (early returns, length
checks, error messages, skipping of unknown attributes) is embedded
directly from `src/lib.rs`.  The native engine behind the raw callback
tables (dictionary lookup, path scoring, partition function, Viterbi
decoding) is not part of the Rust sources; those operations are modelled
from the specification's Context and Dictionary contracts.

Floating-point weights and scores are idealised as exact rationals; the
exponentiation performed by `probability` is taken over the reals.
-/

/-- A loaded CRF model: the label dictionary, the attribute dictionary
(id = list index, as interning assigns dense ids in insertion order),
the state-feature weights indexed by (label id, attribute id) and the
transition-feature weights indexed by (label id, label id). -/
structure CrfModel where
  labels : List String
  attrs : List String
  stateW : ℕ → ℕ → ℚ
  transW : ℕ → ℕ → ℚ

/-- One item of a scored instance: the (attribute id, weight) pairs kept
after dictionary lookup. -/
abbrev CrfItem := List (ℕ × ℚ)

/-- The Rust `Tagger`: the loaded model plus the instance currently held
by the native tagger state (written by `Tagger::set`). -/
structure Tagger where
  model : CrfModel
  inst : List CrfItem

/-- A string contains an interior nul byte; `CString::new` fails exactly
on such strings, which is the only failure of `get_attr` for
`SimpleAttribute` and of the label conversion in `probability`. -/
def hasNul (s : String) : Bool :=
  s.data.any fun c => c == Char.ofNat 0

/-- Index of the first occurrence of a name in a dictionary, if any. -/
def idOfAux (s : String) : List String → ℕ → Option ℕ
  | [], _ => none
  | x :: xs, k => if x == s then some k else idOfAux s xs (k + 1)

/-- Modelled from the spec: Dictionary `id_of(name) -> id | NotFound`
(§4.1) — the interned id of a name, `none` when the name is unknown. -/
def idOf (d : List String) (s : String) : Option ℕ :=
  idOfAux s d 0

/-- Modelled from the spec: the C dictionary `to_id` callback used by
`DictionaryWrapper::str_to_id`; unknown names yield a negative sentinel,
which is the condition the Rust wrapper tests (`0 <= aid`, `l < 0`). -/
def strToId (d : List String) (s : String) : ℤ :=
  match idOf d s with
  | some i => (i : ℤ)
  | none => -1

/-- Modelled from the spec: the state score of label `y` at one position,
`score(t, y) = Σ weight(state feature for (y, attr)) * attr.weight`
over the item's attributes (§4.3). -/
def stateScore (m : CrfModel) (item : CrfItem) (y : ℕ) : ℚ :=
  (item.map fun p => m.stateW y p.1 * p.2).sum

/-- Modelled from the spec: the transition part of a path score, summing
`score(y', y)` over adjacent label pairs of the path (§4.3). -/
def transScore (m : CrfModel) : List ℕ → ℚ
  | y1 :: y2 :: ys => m.transW y1 y2 + transScore m (y2 :: ys)
  | _ => 0

/-- Modelled from the spec: the state part of a path score, summing the
per-position state scores along the path (§4.3). -/
def stateScores (m : CrfModel) : List CrfItem → List ℕ → ℚ
  | x :: xs, y :: ys => stateScore m x y + stateScores m xs ys
  | _, _ => 0

/-- Modelled from the spec: `score(path)` sums the state and transition
scores along one candidate label path (§4.3); this is the value reported
by the native tagger's `score` callback. -/
def pathScore (m : CrfModel) (inst : List CrfItem) (path : List ℕ) : ℚ :=
  stateScores m inst path + transScore m path

/-- All label paths of a given length over label ids `0 .. L-1`. -/
def allPaths (L : ℕ) : ℕ → List (List ℕ)
  | 0 => [[]]
  | n + 1 => (List.range L).flatMap fun y => (allPaths L n).map (y :: ·)

/-- Modelled from the spec: the partition function `Z`, the sum of
`exp(score(path))` over all label sequences of the instance's length
(§4.3, Glossary). -/
noncomputable def Zval (m : CrfModel) (inst : List CrfItem) : ℝ :=
  ((allPaths m.labels.length inst.length).map fun p =>
    Real.exp ((pathScore m inst p : ℚ) : ℝ)).sum

/-- Modelled from the spec: `log Z`, the value reported by the native
tagger's `lognorm` callback (§4.3). -/
noncomputable def logZ (m : CrfModel) (inst : List CrfItem) : ℝ :=
  Real.log (Zval m inst)

/-- First-encountered maximum of a scored list: a later entry replaces
the current best only when strictly greater, so ties keep the earliest
entry (the spec's tie-break policy, §4.3). -/
def argmaxFst {α : Type} : List (ℚ × α) → Option (ℚ × α)
  | [] => none
  | p :: ps => some (ps.foldl (fun best q => if best.1 < q.1 then q else best) p)

/-- Modelled from the spec: the Viterbi table at the first position,
`δ(0, y) = score(0, y)`, each label paired with its (reversed) best path
so far (§4.3). -/
def viterbiInit (m : CrfModel) (L : ℕ) (item : CrfItem) : List (ℚ × List ℕ) :=
  (List.range L).map fun y => (stateScore m item y, [y])

/-- Modelled from the spec: one Viterbi step,
`δ(t, y) = score(t, y) + max over y2 of (δ(t-1, y2) + score(y2, y))`,
with the first-encountered maximum as tie-break; each table entry keeps
its best path in reverse (head = label at the current position). -/
def viterbiStep (m : CrfModel) (L : ℕ) (item : CrfItem)
    (prev : List (ℚ × List ℕ)) : List (ℚ × List ℕ) :=
  (List.range L).map fun y =>
    match argmaxFst (prev.map fun pr => (pr.1 + m.transW (pr.2.headD 0) y, pr.2)) with
    | some (d, p) => (d + stateScore m item y, y :: p)
    | none => (stateScore m item y, [y])

/-- Modelled from the spec: the Viterbi decode of the scored instance —
fill the table position by position, take the first-encountered maximum
of the final column, and read the path back (§4.3).  With a degenerate
empty label dictionary the table is empty and the preallocated
all-zero path buffer of the Rust wrapper is left untouched. -/
def viterbiPath (m : CrfModel) (inst : List CrfItem) : List ℕ :=
  match inst with
  | [] => []
  | x :: xs =>
    let L := m.labels.length
    match argmaxFst (xs.foldl (fun prev item => viterbiStep m L item prev) (viterbiInit m L x)) with
    | some (_, p) => p.reverse
    | none => List.replicate (xs.length + 1) 0

/-- The loops of `Tagger::labels` and `Tagger::viterbi` over
`id_to_string`: convert each id to its name, failing on an unknown id
with the Rust wrapper's error message. -/
def collectNames (d : List String) : List ℕ → Except String (List String)
  | [] => Except.ok []
  | i :: is =>
    match d[i]? with
    | none => Except.error "failed to convert a label identifier to string"
    | some s => (collectNames d is).map (s :: ·)

/-- The loop of `Tagger::probability` converting candidate label names
to ids: `CString::new` fails on interior nul bytes, and a negative id
from `str_to_id` aborts with an error naming the offending label. -/
def resolveTags (d : List String) : List String → Except String (List ℕ)
  | [] => Except.ok []
  | s :: rest =>
    if hasNul s then Except.error "label name contains an interior nul byte"
    else
      let l := strToId d s
      if l < 0 then Except.error ("Failed to convert into label identifier : " ++ s)
      else (resolveTags d rest).map (l.toNat :: ·)

/-- The inner loop of `Tagger::set` over one input item: `get_attr` fails
on interior nul bytes, a nonnegative id from `str_to_id` appends the
(attribute id, value) pair, and a negative id is silently skipped. -/
def buildItem (d : List String) : List (String × ℚ) → Except String CrfItem
  | [] => Except.ok []
  | p :: rest =>
    if hasNul p.1 then Except.error "attribute name contains an interior nul byte"
    else
      let aid := strToId d p.1
      if 0 ≤ aid then (buildItem d rest).map ((aid.toNat, p.2) :: ·)
      else buildItem d rest

/-- The outer loop of `Tagger::set`: build one scored item per input
position. -/
def buildItems (d : List String) : List (List (String × ℚ)) → Except String (List CrfItem)
  | [] => Except.ok []
  | item :: rest =>
    match buildItem d item with
    | Except.error e => Except.error e
    | Except.ok xs => (buildItems d rest).map (xs :: ·)

/-- Modelled from the spec: the native tagger's `length` callback — the
number of items of the currently scored instance. -/
def Tagger.length (t : Tagger) : ℕ :=
  t.inst.length

/-- The `Tagger::labels` method of `src/lib.rs`: look up every id from
`0` to `num - 1` in the label dictionary and collect the names. -/
def Tagger.labels (t : Tagger) : Except String (List String) :=
  collectNames t.model.labels (List.range t.model.labels.length)

/-- The `Tagger::set` method of `src/lib.rs`: intern the attributes of
every input position, silently skipping unknown ones, and hand the
resulting instance to the native tagger state. -/
def Tagger.set (t : Tagger) (input : List (List (String × ℚ))) : Except String Tagger :=
  match buildItems t.model.attrs input with
  | Except.error e => Except.error e
  | Except.ok items => Except.ok { t with inst := items }

/-- The `Tagger::viterbi` method of `src/lib.rs`: an empty scored
instance yields the empty label list; otherwise decode the Viterbi path
and convert its ids to names. -/
def Tagger.viterbi (t : Tagger) : Except String (List String) :=
  if t.length = 0 then Except.ok []
  else collectNames t.model.labels (viterbiPath t.model t.inst)

/-- The `Tagger::tag` method of `src/lib.rs`: `set` then `viterbi`. -/
def Tagger.tag (t : Tagger) (input : List (List (String × ℚ))) : Except String (List String) :=
  match t.set input with
  | Except.error e => Except.error e
  | Except.ok t2 => t2.viterbi

/-- The score the native tagger's `score` callback reports for a label
path against the currently scored instance. -/
def Tagger.scoreQuery (t : Tagger) (path : List ℕ) : ℚ :=
  pathScore t.model t.inst path

/-- The value the native tagger's `lognorm` callback reports for the
currently scored instance. -/
noncomputable def Tagger.lognormQuery (t : Tagger) : ℝ :=
  logZ t.model t.inst

/-- The `Tagger::probability` method of `src/lib.rs`: `Ok(0.0)` for an
empty scored instance, a length-mismatch error when the candidate label
count differs, an error naming the first unknown label, and otherwise
`Ok((score - lognorm).exp())`. -/
noncomputable def Tagger.probability (t : Tagger) (tags : List String) : Except String ℝ :=
  if t.length = 0 then Except.ok 0
  else if t.length ≠ tags.length then
    Except.error ("The number of items and labels differ |x| = " ++ toString t.length ++
      ", |y| = " ++ toString tags.length)
  else
    match resolveTags t.model.labels tags with
    | Except.error e => Except.error e
    | Except.ok path =>
      Except.ok (Real.exp (((t.scoreQuery path : ℚ) : ℝ) - t.lognormQuery))

/-- The probability comparison performed by the repository's
`tests::probability_works` test: `p1 - 0.999977801144 < 1e-6`, with the
float values idealised as rationals. -/
def probCheck (p1 : ℚ) : Prop :=
  p1 - 0.999977801144 < 1e-6

/-- A concrete two-label model used to exercise the wrapper on concrete
inputs. -/
def exModel : CrfModel :=
  { labels := ["O", "B-X"], attrs := ["a"]
    stateW := fun _ _ => 0, transW := fun _ _ => 0 }

/-- A tagger whose scored instance is empty (T = 0). -/
def exEmpty : Tagger :=
  { model := exModel, inst := [] }

/-- A tagger whose scored instance has one position (T = 1). -/
def exOne : Tagger :=
  { model := exModel, inst := [[(0, 1)]] }

/-- Mapping over an `Except` yields `ok` exactly when the underlying
computation did. -/
theorem except_map_ok {α β : Type} (f : α → β) (e : Except String α) (y : β) :
    e.map f = Except.ok y ↔ ∃ x, e = Except.ok x ∧ f x = y := by
  cases e <;> simp [Except.map]

/-- With an empty scored instance, `Tagger::probability` takes the early
return and yields `Ok(0.0)` whatever the candidate labels are. -/
theorem probability_len_zero (t : Tagger) (h : t.length = 0) (tags : List String) :
    t.probability tags = Except.ok 0 := by
  simp [Tagger.probability, h]

/-- With an empty scored instance, `Tagger::viterbi` takes the early
return and yields the empty label list. -/
theorem viterbi_len_zero (t : Tagger) (h : t.length = 0) :
    t.viterbi = Except.ok [] := by
  simp [Tagger.viterbi, h]

/-- An index found by the dictionary scan is bounded by the starting
offset plus the number of scanned entries. -/
theorem idOfAux_lt (s : String) : ∀ (xs : List String) (k i : ℕ),
    idOfAux s xs k = some i → i < k + xs.length := by
  intro xs
  induction xs with
  | nil => intro k i h; simp [idOfAux] at h
  | cons x xs ih =>
    intro k i h
    simp only [idOfAux] at h
    split at h
    · simp only [Option.some.injEq] at h
      simp [← h]
    · have := ih (k + 1) i h
      simp only [List.length_cons]
      omega

/-- A successful dictionary lookup returns an id inside the dictionary. -/
theorem idOf_lt (d : List String) (s : String) (i : ℕ) (h : idOf d s = some i) :
    i < d.length := by
  simpa using idOfAux_lt s d 0 i h

/-- The sentinel view of a successful lookup. -/
theorem strToId_of_some (d : List String) (s : String) (i : ℕ) (h : idOf d s = some i) :
    strToId d s = (i : ℤ) := by
  simp [strToId, h]

/-- The sentinel view of a failed lookup. -/
theorem strToId_of_none (d : List String) (s : String) (h : idOf d s = none) :
    strToId d s = -1 := by
  simp [strToId, h]

/-- A successful run of the label-conversion loop yields one id per
candidate label, each inside the label dictionary. -/
theorem resolveTags_ok (d : List String) : ∀ (tags : List String) (path : List ℕ),
    resolveTags d tags = Except.ok path →
    path.length = tags.length ∧ ∀ y ∈ path, y < d.length := by
  intro tags
  induction tags with
  | nil =>
    intro path h
    simp only [resolveTags, Except.ok.injEq] at h
    subst h
    simp
  | cons s rest ih =>
    intro path h
    simp only [resolveTags] at h
    split at h
    · simp at h
    · split at h
      · simp at h
      · rename_i hnul hneg
        rw [except_map_ok] at h
        obtain ⟨p2, hp2, rfl⟩ := h
        obtain ⟨hl, hb⟩ := ih p2 hp2
        refine ⟨by simp [hl], ?_⟩
        intro y hy
        rcases List.mem_cons.mp hy with rfl | hy2
        · cases hi : idOf d s with
          | none =>
            rw [strToId_of_none d s hi] at hneg
            norm_num at hneg
          | some i =>
            rw [strToId_of_some d s i hi]
            simpa using idOf_lt d s i hi
        · exact hb y hy2

/-- When every candidate label is nul-free and at least one is unknown,
the label-conversion loop fails naming an unknown label (the first
one). -/
theorem resolveTags_unknown (d : List String) : ∀ (tags : List String),
    (∀ s ∈ tags, hasNul s = false) →
    (∃ s ∈ tags, idOf d s = none) →
    ∃ s ∈ tags, idOf d s = none ∧
      resolveTags d tags =
        Except.error ("Failed to convert into label identifier : " ++ s) := by
  intro tags
  induction tags with
  | nil => intro _ h; simp at h
  | cons s rest ih =>
    intro hnul hex
    cases hi : idOf d s with
    | none =>
      refine ⟨s, by simp, hi, ?_⟩
      simp only [resolveTags, hnul s (by simp)]
      rw [if_neg (by simp), if_pos (by rw [strToId_of_none d s hi]; norm_num)]
    | some i =>
      obtain ⟨u, hu, hun⟩ := hex
      rcases List.mem_cons.mp hu with rfl | hu2
      · rw [hi] at hun; cases hun
      · obtain ⟨v, hv, hvn, herr⟩ :=
          ih (fun x hx => hnul x (List.mem_cons_of_mem _ hx)) ⟨u, hu2, hun⟩
        refine ⟨v, List.mem_cons_of_mem _ hv, hvn, ?_⟩
        simp only [resolveTags, hnul s (by simp)]
        rw [if_neg (by simp),
          if_neg (by rw [strToId_of_some d s i hi]; omega), herr]
        rfl

/-- Every in-range label path of the right length is enumerated by
`allPaths`. -/
theorem mem_allPaths (L : ℕ) : ∀ (path : List ℕ), (∀ y ∈ path, y < L) →
    path ∈ allPaths L path.length := by
  intro path
  induction path with
  | nil => intro _; simp [allPaths]
  | cons y p ih =>
    intro h
    simp only [List.length_cons, allPaths, List.mem_flatMap]
    refine ⟨y, List.mem_range.mpr (h y (by simp)), ?_⟩
    exact List.mem_map.mpr ⟨p, ih (fun z hz => h z (by simp [hz])), rfl⟩

/-- The exponentiated score of any in-range path is one of the summands
of the partition function, hence bounded by it. -/
theorem exp_score_le_Zval (m : CrfModel) (inst : List CrfItem) (path : List ℕ)
    (hlen : path.length = inst.length) (hlt : ∀ y ∈ path, y < m.labels.length) :
    Real.exp ((pathScore m inst path : ℚ) : ℝ) ≤ Zval m inst := by
  have hmem : path ∈ allPaths m.labels.length inst.length :=
    hlen ▸ mem_allPaths m.labels.length path hlt
  have hin : Real.exp ((pathScore m inst path : ℚ) : ℝ) ∈
      (allPaths m.labels.length inst.length).map
        (fun p => Real.exp ((pathScore m inst p : ℚ) : ℝ)) :=
    List.mem_map.mpr ⟨path, hmem, rfl⟩
  refine List.single_le_sum (fun x hx => ?_) _ hin
  obtain ⟨p, _, rfl⟩ := List.mem_map.mp hx
  exact (Real.exp_pos _).le

/-- The score of an in-range path never exceeds the log partition value,
so `exp(score - log Z)` is at most one. -/
theorem exp_score_sub_logZ_le_one (m : CrfModel) (inst : List CrfItem) (path : List ℕ)
    (hlen : path.length = inst.length) (hlt : ∀ y ∈ path, y < m.labels.length) :
    Real.exp (((pathScore m inst path : ℚ) : ℝ) - logZ m inst) ≤ 1 := by
  have h1 := exp_score_le_Zval m inst path hlen hlt
  have hZ : 0 < Zval m inst := lt_of_lt_of_le (Real.exp_pos _) h1
  have h2 : ((pathScore m inst path : ℚ) : ℝ) ≤ logZ m inst :=
    (Real.le_log_iff_exp_le hZ).mpr h1
  calc Real.exp (((pathScore m inst path : ℚ) : ℝ) - logZ m inst)
      ≤ Real.exp 0 := Real.exp_le_exp.mpr (by linarith)
    _ = 1 := Real.exp_zero

/-- A successful run of the id-to-name loop returns one name per id, and
position by position the name the dictionary assigns to that id. -/
theorem collectNames_ok (d : List String) : ∀ (l : List ℕ) (ys : List String),
    collectNames d l = Except.ok ys →
    ys.length = l.length ∧
    ∀ i (hy : i < ys.length) (hl : i < l.length), d[l[i]]? = some ys[i] := by
  intro l
  induction l with
  | nil =>
    intro ys h
    simp only [collectNames, Except.ok.injEq] at h
    subst h
    simp
  | cons j l ih =>
    intro ys h
    simp only [collectNames] at h
    split at h
    · simp at h
    · rename_i s hs
      rw [except_map_ok] at h
      obtain ⟨ys2, hys2, rfl⟩ := h
      obtain ⟨hlen, hidx⟩ := ih ys2 hys2
      refine ⟨by simp [hlen], ?_⟩
      intro i hy hl
      match i with
      | 0 => simpa using hs
      | Nat.succ i2 =>
        simpa using hidx i2 (by simpa using hy) (by simpa using hl)

/-- Running the id-to-name loop on in-range ids succeeds and returns the
dictionary entries at those ids. -/
theorem collectNames_of_lt (d : List String) : ∀ (l : List ℕ),
    (∀ i ∈ l, i < d.length) →
    collectNames d l = Except.ok (l.map fun i => d.getD i "") := by
  intro l
  induction l with
  | nil => intro _; simp [collectNames]
  | cons j l ih =>
    intro h
    have hj : j < d.length := h j (by simp)
    simp only [collectNames, List.getElem?_eq_getElem hj]
    rw [ih (fun i hi => h i (by simp [hi]))]
    simp [Except.map, List.getD, List.getElem?_eq_getElem hj]

/-- The `Tagger::labels` loop over `0 .. num-1` reproduces the label
dictionary itself. -/
theorem collectNames_range (d : List String) :
    collectNames d (List.range d.length) = Except.ok d := by
  rw [collectNames_of_lt d (List.range d.length) (fun i hi => List.mem_range.mp hi)]
  congr 1
  refine List.ext_getElem (by simp) ?_
  intro i h1 h2
  simp [List.getD, List.getElem?_eq_getElem h2]

/-- The running best of the first-encountered-maximum fold is either the
seed or one of the folded entries. -/
theorem foldl_choice {α : Type} : ∀ (ps : List (ℚ × α)) (a : ℚ × α),
    ps.foldl (fun best q => if best.1 < q.1 then q else best) a ∈ a :: ps := by
  intro ps
  induction ps with
  | nil => intro a; simp
  | cons q ps ih =>
    intro a
    simp only [List.foldl_cons]
    by_cases hq : a.1 < q.1
    · rw [if_pos hq]
      rcases List.mem_cons.mp (ih q) with h | h
      · simp [h]
      · simp [List.mem_cons_of_mem, h]
    · rw [if_neg hq]
      rcases List.mem_cons.mp (ih a) with h | h
      · simp [h]
      · simp [List.mem_cons_of_mem, h]

/-- The first-encountered maximum is an element of its list. -/
theorem argmaxFst_mem {α : Type} (l : List (ℚ × α)) (p : ℚ × α)
    (h : argmaxFst l = some p) : p ∈ l := by
  cases l with
  | nil => simp [argmaxFst] at h
  | cons a as =>
    simp only [argmaxFst, Option.some.injEq] at h
    exact h ▸ foldl_choice as a

/-- The first-encountered maximum is `none` only for the empty list. -/
theorem argmaxFst_eq_none {α : Type} (l : List (ℚ × α))
    (h : argmaxFst l = none) : l = [] := by
  cases l with
  | nil => rfl
  | cons a as => simp [argmaxFst] at h

/-- Invariant of the Viterbi table: one entry per label, every carried
path of the expected length with in-range labels. -/
def TableOK (L k : ℕ) (tbl : List (ℚ × List ℕ)) : Prop :=
  tbl.length = L ∧ ∀ e ∈ tbl, e.2.length = k ∧ ∀ a ∈ e.2, a < L

/-- The initial Viterbi table satisfies the invariant with paths of
length one. -/
theorem viterbiInit_ok (m : CrfModel) (L : ℕ) (x : CrfItem) :
    TableOK L 1 (viterbiInit m L x) := by
  refine ⟨by simp [viterbiInit], ?_⟩
  intro e he
  obtain ⟨y, hy, rfl⟩ := List.mem_map.mp he
  exact ⟨rfl, fun a ha => by simpa [List.eq_of_mem_singleton ha] using List.mem_range.mp hy⟩

/-- One Viterbi step preserves the invariant, extending every carried
path by one label. -/
theorem viterbiStep_ok (m : CrfModel) (L k : ℕ) (item : CrfItem)
    (prev : List (ℚ × List ℕ)) (hL : 0 < L) (h : TableOK L k prev) :
    TableOK L (k + 1) (viterbiStep m L item prev) := by
  obtain ⟨hlen, hent⟩ := h
  refine ⟨by simp [viterbiStep], ?_⟩
  intro e he
  obtain ⟨y, hy, rfl⟩ := List.mem_map.mp he
  have hy2 : y < L := List.mem_range.mp hy
  cases hm : argmaxFst (prev.map fun pr => (pr.1 + m.transW (pr.2.headD 0) y, pr.2)) with
  | none =>
    exfalso
    have := argmaxFst_eq_none _ hm
    have : prev = [] := by simpa using this
    rw [this] at hlen
    simp at hlen
    omega
  | some dp =>
    obtain ⟨d2, p2⟩ := dp
    have hmem := argmaxFst_mem _ _ hm
    obtain ⟨pr, hpr, hpr2⟩ := List.mem_map.mp hmem
    obtain ⟨hprl, hprb⟩ := hent pr hpr
    have hp2 : p2 = pr.2 := (congrArg Prod.snd hpr2).symm
    simp only [hm]
    refine ⟨by simp [hp2, hprl], ?_⟩
    intro a ha
    rcases List.mem_cons.mp ha with rfl | ha2
    · exact hy2
    · exact hprb a (hp2 ▸ ha2)

/-- Folding Viterbi steps over the remaining items preserves the
invariant, counting one position per item. -/
theorem viterbiFold_ok (m : CrfModel) (L : ℕ) (hL : 0 < L) :
    ∀ (xs : List CrfItem) (prev : List (ℚ × List ℕ)) (k : ℕ),
    TableOK L k prev →
    TableOK L (k + xs.length) (xs.foldl (fun prev item => viterbiStep m L item prev) prev) := by
  intro xs
  induction xs with
  | nil => intro prev k h; simpa using h
  | cons x xs ih =>
    intro prev k h
    simp only [List.foldl_cons, List.length_cons]
    rw [show k + (xs.length + 1) = (k + 1) + xs.length from by omega]
    exact ih (viterbiStep m L x prev) (k + 1) (viterbiStep_ok m L k x prev hL h)

/-- A fold whose step ignores its accumulator and returns the empty list
stays empty once started from the empty list. -/
theorem foldl_nil_of_step_nil {α β : Type} (f : List α → β → List α)
    (hf : ∀ p b, f p b = []) : ∀ (bs : List β), bs.foldl f [] = [] := by
  intro bs
  induction bs with
  | nil => rfl
  | cons b bs ih => simp only [List.foldl_cons, hf]; exact ih

/-- The decoded Viterbi path has exactly one label per instance
position. -/
theorem viterbiPath_length (m : CrfModel) (inst : List CrfItem) :
    (viterbiPath m inst).length = inst.length := by
  cases inst with
  | nil => rfl
  | cons x xs =>
    simp only [viterbiPath]
    by_cases hL : m.labels.length = 0
    · have hstep : ∀ (p : List (ℚ × List ℕ)) (item : CrfItem),
          viterbiStep m m.labels.length item p = [] := by
        intro p item
        simp [viterbiStep, hL]
      have hinit : viterbiInit m m.labels.length x = [] := by
        simp [viterbiInit, hL]
      have htbl : xs.foldl (fun prev item => viterbiStep m m.labels.length item prev)
          (viterbiInit m m.labels.length x) = [] := by
        rw [hinit]
        exact foldl_nil_of_step_nil _ (fun p b => hstep p b) xs
      rw [htbl]
      simp [argmaxFst]
    · have hL2 : 0 < m.labels.length := Nat.pos_of_ne_zero hL
      have htbl := viterbiFold_ok m m.labels.length hL2 xs
        (viterbiInit m m.labels.length x) 1 (viterbiInit_ok m m.labels.length x)
      obtain ⟨htl, hte⟩ := htbl
      cases hm : argmaxFst (xs.foldl (fun prev item => viterbiStep m m.labels.length item prev)
          (viterbiInit m m.labels.length x)) with
      | none =>
        exfalso
        have := argmaxFst_eq_none _ hm
        rw [this] at htl
        simp at htl
        omega
      | some dp =>
        obtain ⟨d2, p2⟩ := dp
        have hmem := argmaxFst_mem _ _ hm
        obtain ⟨hpl, _⟩ := hte _ hmem
        simp only [hm]
        simp [hpl]
        omega

/-- On nul-free attribute names, the inner `set` loop never fails: it
keeps exactly the attributes the dictionary knows, paired with their
ids, and silently drops the unknown ones. -/
theorem buildItem_ok (d : List String) : ∀ (item : List (String × ℚ)),
    (∀ p ∈ item, hasNul p.1 = false) →
    buildItem d item =
      Except.ok (item.filterMap fun p => (idOf d p.1).map fun i => (i, p.2)) := by
  intro item
  induction item with
  | nil => intro _; simp [buildItem]
  | cons p rest ih =>
    intro h
    simp only [buildItem, h p (by simp)]
    rw [if_neg (by simp)]
    cases hi : idOf d p.1 with
    | none =>
      rw [if_neg (by rw [strToId_of_none d p.1 hi]; norm_num)]
      rw [ih (fun q hq => h q (by simp [hq]))]
      simp [List.filterMap_cons, hi]
    | some i =>
      rw [if_pos (by rw [strToId_of_some d p.1 i hi]; omega)]
      rw [ih (fun q hq => h q (by simp [hq]))]
      simp [Except.map, List.filterMap_cons, hi, strToId_of_some d p.1 i hi]

/-- On nul-free attribute names, the outer `set` loop succeeds and keeps
one filtered item per input position. -/
theorem buildItems_ok (d : List String) : ∀ (input : List (List (String × ℚ))),
    (∀ item ∈ input, ∀ p ∈ item, hasNul p.1 = false) →
    buildItems d input = Except.ok (input.map fun item =>
      item.filterMap fun p => (idOf d p.1).map fun i => (i, p.2)) := by
  intro input
  induction input with
  | nil => intro _; simp [buildItems]
  | cons item rest ih =>
    intro h
    simp only [buildItems]
    rw [buildItem_ok d item (h item (by simp))]
    rw [ih (fun it hit => h it (by simp [hit]))]
    simp [Except.map]

/-- A successful `set` produces one scored item per input position. -/
theorem buildItems_length (d : List String) : ∀ (input : List (List (String × ℚ)))
    (items : List CrfItem), buildItems d input = Except.ok items →
    items.length = input.length := by
  intro input
  induction input with
  | nil =>
    intro items h
    simp only [buildItems, Except.ok.injEq] at h
    simp [← h]
  | cons item rest ih =>
    intro items h
    simp only [buildItems] at h
    split at h
    · simp at h
    · rw [except_map_ok] at h
      obtain ⟨xs, hxs, rfl⟩ := h
      simp [ih xs hxs]

/-- Claim C1, counterexample: on a concrete tagger with an empty scored
sequence (T = 0), `Tagger::viterbi` does return `Ok` of the empty vector,
but `Tagger::probability` returns `Ok(0.0)`, not `Ok(1.0)` as the claim
states. -/
theorem claim_C1_counterexample :
    exEmpty.viterbi = Except.ok [] ∧
    exEmpty.probability [] = Except.ok 0 ∧
    exEmpty.probability [] ≠ Except.ok 1 := by
  refine ⟨rfl, rfl, ?_⟩
  intro h
  rw [show exEmpty.probability [] = Except.ok 0 from rfl] at h
  exact zero_ne_one (α := ℝ) (Except.ok.inj h)

/-- Claim C1, amended: for a scored sequence of length zero (T = 0),
`Tagger::viterbi` returns `Ok` of the empty vector and
`Tagger::probability` returns `Ok(0.0)` (not 1.0), both without error,
for every candidate label argument. -/
theorem claim_C1 (t : Tagger) (tags : List String) (h : t.length = 0) :
    t.viterbi = Except.ok [] ∧ t.probability tags = Except.ok 0 :=
  ⟨viterbi_len_zero t h, probability_len_zero t h tags⟩

/-- Claim C1, witness: the amended behaviour at a concrete empty-instance
tagger. -/
theorem claim_C1_witness :
    exEmpty.length = 0 ∧
    (exEmpty.viterbi = Except.ok [] ∧ exEmpty.probability ["y"] = Except.ok 0) :=
  ⟨rfl, claim_C1 exEmpty ["y"] rfl⟩

/-- Claim C2: for a scored sequence of positive length and a candidate
path of matching length whose labels all resolve to known label ids,
`Tagger::probability` returns `exp(score(path) - log Z)` where `score`
and `log Z` are the values reported by the tagger's score and lognorm
queries. -/
theorem claim_C2 (t : Tagger) (tags : List String) (path : List ℕ)
    (hT : 0 < t.length) (hlen : tags.length = t.length)
    (hres : resolveTags t.model.labels tags = Except.ok path) :
    t.probability tags =
      Except.ok (Real.exp (((t.scoreQuery path : ℚ) : ℝ) - t.lognormQuery)) := by
  simp only [Tagger.probability]
  rw [if_neg (by omega), if_neg (by omega), hres]

/-- Claim C2, witness: a concrete one-position tagger and the known
label "O". -/
theorem claim_C2_witness :
    0 < exOne.length ∧ (["O"] : List String).length = exOne.length ∧
    resolveTags exOne.model.labels ["O"] = Except.ok [0] ∧
    exOne.probability ["O"] =
      Except.ok (Real.exp (((exOne.scoreQuery [0] : ℚ) : ℝ) - exOne.lognormQuery)) :=
  ⟨by decide, rfl, rfl, claim_C2 exOne ["O"] [0] (by decide) rfl rfl⟩

/-- Claim C3, counterexample: with an empty scored sequence and a
one-element candidate list the lengths differ, yet `Tagger::probability`
returns `Ok(0.0)` instead of the length-mismatch error the claim
demands for every mismatch. -/
theorem claim_C3_counterexample :
    (["O"] : List String).length ≠ exEmpty.length ∧
    exEmpty.probability ["O"] = Except.ok 0 :=
  ⟨by decide, rfl⟩

/-- Claim C3, amended: when the scored sequence has positive length,
every candidate label sequence of a different length makes
`Tagger::probability` fail with the length-mismatch error reporting both
lengths, and no probability value is returned. -/
theorem claim_C3 (t : Tagger) (tags : List String)
    (hT : 0 < t.length) (hne : tags.length ≠ t.length) :
    t.probability tags =
      Except.error ("The number of items and labels differ |x| = " ++
        toString t.length ++ ", |y| = " ++ toString tags.length) := by
  simp only [Tagger.probability]
  rw [if_neg (by omega), if_pos (by omega)]

/-- Claim C3, witness: the amended behaviour at a concrete one-position
tagger and an empty candidate list. -/
theorem claim_C3_witness :
    0 < exOne.length ∧ ([] : List String).length ≠ exOne.length ∧
    exOne.probability [] =
      Except.error ("The number of items and labels differ |x| = " ++
        toString exOne.length ++ ", |y| = " ++ toString ([] : List String).length) :=
  ⟨by decide, by decide, claim_C3 exOne [] (by decide) (by decide)⟩

/-- Claim C4: for every input sequence (with well-formed, nul-free
attribute names), `Tagger::set` succeeds, and the scored instance keeps
exactly the attributes found in the model's attribute dictionary —
an unknown attribute contributes no feature and causes no error. -/
theorem claim_C4 (t : Tagger) (input : List (List (String × ℚ)))
    (h : ∀ item ∈ input, ∀ p ∈ item, hasNul p.1 = false) :
    t.set input = Except.ok { t with inst := input.map (fun item =>
      item.filterMap fun p => (idOf t.model.attrs p.1).map fun i => (i, p.2)) } := by
  simp only [Tagger.set]
  rw [buildItems_ok t.model.attrs input h]

/-- Claim C4, witness: a concrete input whose second attribute "zz" is
unknown to the dictionary; `set` succeeds and keeps only "a". -/
theorem claim_C4_witness :
    (∀ item ∈ [[("a", (1 : ℚ)), ("zz", 2)]], ∀ p ∈ item, hasNul p.1 = false) ∧
    exEmpty.set [[("a", 1), ("zz", 2)]] =
      Except.ok { exEmpty with inst := [[("a", (1 : ℚ)), ("zz", 2)]].map (fun item =>
        item.filterMap fun p => (idOf exEmpty.model.attrs p.1).map fun i => (i, p.2)) } :=
  ⟨by decide, claim_C4 exEmpty [[("a", 1), ("zz", 2)]] (by decide)⟩

/-- Claim C5: with a scored sequence of positive length and a matching
number of (nul-free) candidate labels of which at least one is unknown
to the label dictionary, `Tagger::probability` fails with an error
naming an offending label. -/
theorem claim_C5 (t : Tagger) (tags : List String)
    (hT : 0 < t.length) (hlen : tags.length = t.length)
    (hnul : ∀ s ∈ tags, hasNul s = false)
    (hunk : ∃ s ∈ tags, idOf t.model.labels s = none) :
    ∃ s ∈ tags, idOf t.model.labels s = none ∧
      t.probability tags =
        Except.error ("Failed to convert into label identifier : " ++ s) := by
  obtain ⟨s, hs, hn, herr⟩ := resolveTags_unknown t.model.labels tags hnul hunk
  refine ⟨s, hs, hn, ?_⟩
  simp only [Tagger.probability]
  rw [if_neg (by omega), if_neg (by omega), herr]

/-- Claim C5, witness: a concrete one-position tagger with the unknown
candidate label "ZZZ". -/
theorem claim_C5_witness :
    0 < exOne.length ∧ (["ZZZ"] : List String).length = exOne.length ∧
    (∀ s ∈ (["ZZZ"] : List String), hasNul s = false) ∧
    (∃ s ∈ (["ZZZ"] : List String), idOf exOne.model.labels s = none) ∧
    (∃ s ∈ (["ZZZ"] : List String), idOf exOne.model.labels s = none ∧
      exOne.probability ["ZZZ"] =
        Except.error ("Failed to convert into label identifier : " ++ s)) :=
  ⟨by decide, rfl, by decide, by decide,
    claim_C5 exOne ["ZZZ"] (by decide) rfl (by decide) (by decide)⟩

/-- Claim C6: whenever `Tagger::probability` returns a success value,
that value lies in [0, 1] — `exp(score - lognorm)` for a resolved path
never exceeds 1 because the path's exponentiated score is one summand of
the partition function, and the zero-length early return yields 0. -/
theorem claim_C6 (t : Tagger) (tags : List String) (p : ℝ)
    (h : t.probability tags = Except.ok p) : 0 ≤ p ∧ p ≤ 1 := by
  simp only [Tagger.probability] at h
  by_cases hT : t.length = 0
  · rw [if_pos hT] at h
    have h0 : (0 : ℝ) = p := Except.ok.inj h
    rw [← h0]
    norm_num
  · rw [if_neg hT] at h
    by_cases hlen : t.length ≠ tags.length
    · rw [if_pos hlen] at h
      simp at h
    · rw [if_neg hlen] at h
      cases hres : resolveTags t.model.labels tags with
      | error e => rw [hres] at h; simp at h
      | ok path =>
        rw [hres] at h
        have hp := Except.ok.inj h
        obtain ⟨hplen, hplt⟩ := resolveTags_ok t.model.labels tags path hres
        rw [← hp]
        refine ⟨(Real.exp_pos _).le, ?_⟩
        have hlen2 : path.length = t.inst.length := by
          simp only [Tagger.length, ne_eq, not_not] at hplen hlen
          omega
        simpa [Tagger.scoreQuery, Tagger.lognormQuery]
          using exp_score_sub_logZ_le_one t.model t.inst path hlen2 hplt

/-- Claim C6, witness: a concrete success value of the probability
query, bounded by the theorem. -/
theorem claim_C6_witness :
    exEmpty.probability ["a"] = Except.ok 0 ∧ ((0 : ℝ) ≤ 0 ∧ (0 : ℝ) ≤ 1) :=
  ⟨rfl, claim_C6 exEmpty ["a"] 0 rfl⟩

/-- Claim C7: `Tagger::labels` returns the model's label dictionary as
an ordered list — one name per id, in increasing id order, so the result
is exactly the dictionary's id-indexed name list. -/
theorem claim_C7 (t : Tagger) : t.labels = Except.ok t.model.labels :=
  collectNames_range t.model.labels

/-- Claim C8: a successful `Tagger::tag` returns one label per input
position, each being the name the label dictionary assigns to the
corresponding id on the Viterbi path of the scored instance. -/
theorem claim_C8 (t : Tagger) (input : List (List (String × ℚ))) (ys : List String)
    (h : t.tag input = Except.ok ys) :
    ys.length = input.length ∧
    ∃ items, buildItems t.model.attrs input = Except.ok items ∧
      (viterbiPath t.model items).length = input.length ∧
      ∀ i (hy : i < ys.length) (hp : i < (viterbiPath t.model items).length),
        t.model.labels[(viterbiPath t.model items)[i]]? = some ys[i] := by
  simp only [Tagger.tag, Tagger.set] at h
  cases hb : buildItems t.model.attrs input with
  | error e => rw [hb] at h; simp at h
  | ok items =>
    rw [hb] at h
    have hlen : items.length = input.length := buildItems_length t.model.attrs input items hb
    simp only [Tagger.viterbi, Tagger.length] at h
    by_cases h0 : items.length = 0
    · rw [if_pos h0] at h
      have hys : ys = [] := (Except.ok.inj h).symm
      subst hys
      refine ⟨by simp [← hlen, h0], items, rfl, ?_, ?_⟩
      · rw [viterbiPath_length]
        omega
      · intro i hy
        simp at hy
    · rw [if_neg h0] at h
      obtain ⟨hyl, hidx⟩ := collectNames_ok t.model.labels (viterbiPath t.model items) ys h
      have hvl : (viterbiPath t.model items).length = items.length :=
        viterbiPath_length t.model items
      exact ⟨by rw [hyl, hvl, hlen], items, rfl, by rw [hvl, hlen], hidx⟩

/-- Claim C8, witness: the theorem applied at a concrete tagger and the
empty input sequence. -/
theorem claim_C8_witness :
    exOne.tag [] = Except.ok [] ∧
    (([] : List String).length = ([] : List (List (String × ℚ))).length ∧
      ∃ items, buildItems exOne.model.attrs [] = Except.ok items ∧
        (viterbiPath exOne.model items).length = ([] : List (List (String × ℚ))).length ∧
        ∀ i (hy : i < ([] : List String).length)
          (hp : i < (viterbiPath exOne.model items).length),
          exOne.model.labels[(viterbiPath exOne.model items)[i]]? =
            some (([] : List String)[i])) :=
  ⟨rfl, claim_C8 exOne [] [] rfl⟩

/-- Claim C9: the test's one-sided comparison `p1 - 0.999977801144 < 1e-6`
holds for every value below `0.999977801144 + 1e-6`, so it constrains
the probability only from above and passes for arbitrarily small
values. -/
theorem claim_C9 (p1 : ℚ) (h : p1 < 0.999977801144 + 1e-6) : probCheck p1 := by
  unfold probCheck
  linarith

/-- Claim C9, witness: the check passes even at -1000, far below the
expected probability. -/
theorem claim_C9_witness :
    ((-1000 : ℚ) < 0.999977801144 + 1e-6) ∧ probCheck (-1000) :=
  ⟨by norm_num, claim_C9 (-1000) (by norm_num)⟩

/-- Claim C10: when the scored sequence is empty, `Tagger::probability`
returns `Ok(0.0)` for every candidate label argument — the length check
and the label conversion are skipped entirely. -/
theorem claim_C10 (t : Tagger) (tags : List String) (h : t.length = 0) :
    t.probability tags = Except.ok 0 :=
  probability_len_zero t h tags

/-- Claim C10, witness: a mismatched two-label candidate list against an
empty scored sequence still yields `Ok(0.0)`. -/
theorem claim_C10_witness :
    exEmpty.length = 0 ∧ exEmpty.probability ["x", "y"] = Except.ok 0 :=
  ⟨rfl, claim_C10 exEmpty ["x", "y"] rfl⟩
